import Mathlib

/-!
# Verification of the forest-fire cellular automaton

Shallow embedding of the simulation core of
`src/sem5/SimulationAndModelling/simulation.py` (class `ForestFireSimulation`).

Modelling conventions:

* Python floats are modelled as real numbers (`ℝ`); all arithmetic is exact.
* The grid `np.zeros((GRID_HEIGHT, GRID_WIDTH), dtype=np.uint8)` is modelled as a
  total function `Fin GRID_HEIGHT → Fin GRID_WIDTH → CellState`.
* Randomness is modelled by oracles supplying the uniform draws the code makes:
  `_simulate_step` consumes exactly one `np.random.random()` draw per pair
  (burning cell, neighbour offset) whose in-bounds/TREE guard holds, so a
  `RandOracle` assigns a real draw to each such pair; `_init_forest` makes one
  draw per cell (`np.random.choice([EMPTY, TREE], p=[1 - d, d])`, a cell is a
  `TREE` exactly when its draw falls in the probability-`d` part of the unit
  interval); `_start_fire` receives the index list that
  `np.random.choice(len(trees), min(3, len(trees)), replace=False)` returns.
* The `Slider` widgets are UI glue; a slider is represented by its `.val` field,
  stored in the `slider_*` fields of `SimState`.
-/

/-- The four cell states of
`CELL_STATES = IntEnum('CellState', {'EMPTY': 0, 'TREE': 1, 'BURNING': 2, 'BURNT': 3})`. -/
inductive CellState where
  | EMPTY
  | TREE
  | BURNING
  | BURNT
deriving DecidableEq

open CellState

/-- `GRID_WIDTH, GRID_HEIGHT = 120, 80` in the source. -/
abbrev GRID_WIDTH : ℕ := 120

abbrev GRID_HEIGHT : ℕ := 80

/-- A grid position `(row, column)`; rows are the first numpy index. -/
abbrev Pos : Type := Fin GRID_HEIGHT × Fin GRID_WIDTH

/-- The cell-state array `self.grid`, as a total function on in-bounds positions. -/
abbrev Grid : Type := Fin GRID_HEIGHT → Fin GRID_WIDTH → CellState

/-- A single array write `grid[p] = c`. -/
def setCell (g : Grid) (p : Pos) (c : CellState) : Grid :=
  fun y x => if y = p.1 ∧ x = p.2 then c else g y x

/-- The neighbour offsets `(dy, dx)` of `_simulate_step`, in the order of
`[(-1, 0), (1, 0), (0, -1), (0, 1), (-1, -1), (-1, 1), (1, -1), (1, 1)]`. -/
def offsets : List (ℤ × ℤ) :=
  [(-1, 0), (1, 0), (0, -1), (0, 1), (-1, -1), (-1, 1), (1, -1), (1, 1)]

/-- `ny, nx = by + dy, bx + dx` together with the bounds check
`0 <= ny < GRID_HEIGHT and 0 <= nx < GRID_WIDTH`: the in-bounds neighbour of `b`
at offset `od`, if any. -/
def tgt (b : Pos) (od : ℤ × ℤ) : Option Pos :=
  if h : 0 ≤ (b.1 : ℤ) + od.1 ∧ (b.1 : ℤ) + od.1 < GRID_HEIGHT ∧
      0 ≤ (b.2 : ℤ) + od.2 ∧ (b.2 : ℤ) + od.2 < GRID_WIDTH then
    some (⟨((b.1 : ℤ) + od.1).toNat, by omega⟩, ⟨((b.2 : ℤ) + od.2).toNat, by omega⟩)
  else
    none

/-- `math.atan2 y x`, modelled as the principal argument of the complex number
`x + y·i` (range `(-π, π]`, with `atan2 0 (-1) = π`, as for Python floats with
positive zero). -/
noncomputable def atan2 (y x : ℝ) : ℝ := Complex.arg ⟨x, y⟩

/-- `math.radians`: degrees to radians. -/
noncomputable def radians (d : ℝ) : ℝ := d * Real.pi / 180

/-- `_get_wind_bias(dy, dx)`, literally from the source:

```
if self.wind_str == 0: return 1.0
angle = math.atan2(dx, -dy) * 180 / math.pi
diff = abs(angle - self.wind_dir)
if diff > 180: diff = 360 - diff
return max(0.1, 1.0 + self.wind_str * math.cos(math.radians(diff)))
```

with the locals `angle` and `diff` inlined. -/
noncomputable def getWindBias (wind_dir wind_str : ℝ) (dy dx : ℤ) : ℝ :=
  if wind_str = 0 then 1
  else
    max 0.1 (1 + wind_str * Real.cos (radians
      (if 180 < |atan2 (dx : ℝ) (-(dy : ℝ)) * 180 / Real.pi - wind_dir|
       then 360 - |atan2 (dx : ℝ) (-(dy : ℝ)) * 180 / Real.pi - wind_dir|
       else |atan2 (dx : ℝ) (-(dy : ℝ)) * 180 / Real.pi - wind_dir|)))

/-- One uniform draw of `np.random.random()` for the ignition trial of the
burning cell `b` against the offset `od`; the loop of `_simulate_step` makes at
most one draw per such pair, so indexing the i.i.d. draws by the pair is
faithful. -/
abbrev RandOracle : Type := Pos → ℤ × ℤ → ℝ

/-- The first half of `_simulate_step`:
`new = self.grid.copy(); new[burning rows, burning cols] = BURNT`. -/
def burnOld (g : Grid) : Grid :=
  fun y x => if g y x = BURNING then BURNT else g y x

/-- `np.argwhere(self.grid == CELL_STATES.BURNING)`, in row-major order. -/
def burningList (g : Grid) : List Pos :=
  (List.finRange GRID_HEIGHT).flatMap fun y =>
    ((List.finRange GRID_WIDTH).filter fun x => decide (g y x = BURNING)).map fun x => (y, x)

/-- The body of the inner loop of `_simulate_step` for one burning cell `b` and
one offset `od`:

```
ny, nx = by + dy, bx + dx
if 0 <= ny < GRID_HEIGHT and 0 <= nx < GRID_WIDTH and self.grid[ny, nx] == TREE:
    prob = self.fire_prob * self._get_wind_bias(dy, dx) * (1 - self.moisture)
    if np.random.random() < prob: new[ny, nx] = BURNING
```

Note that the `TREE` test reads the old grid `self.grid` while the write goes to
the new buffer `new` (here `acc`). -/
noncomputable def igniteNeighbor (fire_prob wind_dir wind_str moisture : ℝ) (rand : RandOracle)
    (g : Grid) (b : Pos) (acc : Grid) (od : ℤ × ℤ) : Grid :=
  match tgt b od with
  | none => acc
  | some t =>
      if g t.1 t.2 = TREE then
        if rand b od < fire_prob * getWindBias wind_dir wind_str od.1 od.2 * (1 - moisture) then
          setCell acc t BURNING
        else acc
      else acc

/-- The inner `for dy, dx in [...]` loop of `_simulate_step` for one burning cell. -/
noncomputable def igniteFromCell (fire_prob wind_dir wind_str moisture : ℝ) (rand : RandOracle)
    (g : Grid) (acc : Grid) (b : Pos) : Grid :=
  offsets.foldl (igniteNeighbor fire_prob wind_dir wind_str moisture rand g b) acc

/-- The grid produced by `_simulate_step`: mark the old burning cells `BURNT` in a
copy, then run the double loop over burning cells and offsets, then the copy
replaces `self.grid`. -/
noncomputable def stepGrid (fire_prob wind_dir wind_str moisture : ℝ) (rand : RandOracle)
    (g : Grid) : Grid :=
  (burningList g).foldl (igniteFromCell fire_prob wind_dir wind_str moisture rand g) (burnOld g)

/-- `np.any(self.grid == CELL_STATES.BURNING)`. -/
def anyBurningB (g : Grid) : Bool :=
  decide (∃ y : Fin GRID_HEIGHT, ∃ x : Fin GRID_WIDTH, g y x = BURNING)

/-- The mutable state of `ForestFireSimulation` that the simulation core touches:
the grid, the `running`/`paused` flags, the five slider values (`Slider.val`),
the five parameters, and the derived `fire_prob`. -/
structure SimState where
  grid : Grid
  running : Bool
  paused : Bool
  slider_density : ℝ
  slider_wind_dir : ℝ
  slider_wind_str : ℝ
  slider_moisture : ℝ
  slider_temperature : ℝ
  tree_density : ℝ
  wind_dir : ℝ
  wind_str : ℝ
  moisture : ℝ
  temperature : ℝ
  fire_prob : ℝ

/-- `_simulate_step`: replace the grid by `stepGrid` of the old one and run
`if not np.any(self.grid == BURNING): self.running = False`. -/
noncomputable def simulateStep (rand : RandOracle) (s : SimState) : SimState :=
  let new := stepGrid s.fire_prob s.wind_dir s.wind_str s.moisture rand s.grid
  { s with grid := new, running := if anyBurningB new then s.running else false }

/-- `_init_forest`: every cell is drawn independently,
`np.random.choice([EMPTY, TREE], p=[1 - d, d])`; with a uniform draw `u y x` per
cell, the cell is `TREE` exactly when the draw falls below the tree density. -/
noncomputable def initForest (tree_density : ℝ) (u : Fin GRID_HEIGHT → Fin GRID_WIDTH → ℝ) :
    Grid :=
  fun y x => if u y x < tree_density then TREE else EMPTY

/-- `np.argwhere(self.grid == CELL_STATES.TREE)`, in row-major order. -/
def treeList (g : Grid) : List Pos :=
  (List.finRange GRID_HEIGHT).flatMap fun y =>
    ((List.finRange GRID_WIDTH).filter fun x => decide (g y x = TREE)).map fun x => (y, x)

/-- `_start_fire`, with the distinct indices returned by
`np.random.choice(len(trees), min(3, len(trees)), replace=False)` supplied as the
oracle list `pick`:

```
trees = np.argwhere(self.grid == TREE)
if len(trees) > 0:
    for y, x in trees[np.random.choice(len(trees), min(3, len(trees)), replace=False)]:
        self.grid[y, x] = BURNING
    self.running = True
``` -/
def startFire (pick : List ℕ) (s : SimState) : SimState :=
  if treeList s.grid = [] then s
  else
    { s with
      grid := pick.foldl (fun acc i =>
        match (treeList s.grid)[i]? with
        | some t => setCell acc t BURNING
        | none => acc) s.grid,
      running := true }

/-- `clamp(val, lo, hi) = max(lo, min(hi, val))` from the source helpers. -/
noncomputable def clamp (val lo hi : ℝ) : ℝ := max lo (min hi val)

/-- The derived fire-spread probability computed at the end of `_sync_params`:

```
temp_factor = clamp((self.temperature - 10) / 40, 0, 1)
self.fire_prob = clamp(0.15 + 0.5 * temp_factor + 0.2 * self.wind_str - 0.4 * self.moisture, 0.05, 0.95)
```

Named after the spec operation `derive_fire_probability`. -/
noncomputable def derive_fire_probability (temperature wind_str moisture : ℝ) : ℝ :=
  clamp (0.15 + 0.5 * clamp ((temperature - 10) / 40) 0 1 + 0.2 * wind_str - 0.4 * moisture)
    0.05 0.95

/-- `_sync_params`: copy the slider values into the parameters and recompute
`fire_prob` from the freshly copied temperature, wind strength and moisture. -/
noncomputable def syncParams (s : SimState) : SimState :=
  { s with
    tree_density := s.slider_density
    wind_dir := s.slider_wind_dir
    wind_str := s.slider_wind_str
    moisture := s.slider_moisture
    temperature := s.slider_temperature
    fire_prob := derive_fire_probability s.slider_temperature s.slider_wind_str
      s.slider_moisture }

/-- `_reset_forest`: `self.tree_density = self.sliders[0].val; self._init_forest();
self.running, self.paused = False, False`. -/
noncomputable def resetForest (u : Fin GRID_HEIGHT → Fin GRID_WIDTH → ℝ) (s : SimState) :
    SimState :=
  { s with
    tree_density := s.slider_density
    grid := initForest s.slider_density u
    running := false
    paused := false }

/-- `_randomize`: write the five freshly drawn values into the sliders, then
`_sync_params`, then `_reset_forest`. -/
noncomputable def randomize (d wd ws mo te : ℝ) (u : Fin GRID_HEIGHT → Fin GRID_WIDTH → ℝ)
    (s : SimState) : SimState :=
  resetForest u (syncParams
    { s with slider_density := d, slider_wind_dir := wd, slider_wind_str := ws,
             slider_moisture := mo, slider_temperature := te })

/-- Spec side: a `TREE` cell `t` is ignited when some burning cell `b` has `t` as
its in-bounds neighbour at some offset `od` and the Bernoulli trial of that pair
succeeds, i.e. its uniform draw falls below
`fire_prob * wind_bias(dy, dx) * (1 - moisture)`.  `od` is the offset from the
burning cell to the tree, which is how `_simulate_step` indexes the wind bias. -/
def ignitedFrom (fire_prob wind_dir wind_str moisture : ℝ) (rand : RandOracle) (g : Grid)
    (t : Pos) : Prop :=
  ∃ od ∈ offsets, ∃ b : Pos,
    tgt b od = some t ∧ g b.1 b.2 = BURNING ∧
    rand b od < fire_prob * getWindBias wind_dir wind_str od.1 od.2 * (1 - moisture)

open Classical in
/-- Spec side: the globally synchronous per-cell transition of spec §4.2, defined
cell-wise from the previous grid only: `BURNING → BURNT`; `TREE → BURNING` iff
some burning neighbour's trial succeeds, else `TREE`; `EMPTY` and `BURNT` are
fixed. -/
noncomputable def syncStep (fire_prob wind_dir wind_str moisture : ℝ) (rand : RandOracle)
    (g : Grid) : Grid :=
  fun y x =>
    if g y x = BURNING then BURNT
    else if g y x = TREE then
      (if ignitedFrom fire_prob wind_dir wind_str moisture rand g (y, x) then BURNING else TREE)
    else g y x

/-- Spec side: the shortest angular distance between two bearings in degrees,
wrapped into `[0, 180]`. -/
noncomputable def angDist (a b : ℝ) : ℝ :=
  |a - b - 360 * ((round ((a - b) / 360) : ℤ) : ℝ)|

/-- Spec side: wind bias as §4.2 words it — `1.0` if `wind_str = 0`, otherwise
`max(0.1, 1.0 + wind_str · cos(radians(diff)))` where `diff` is the shortest
angular distance, wrapped into `[0, 180]`, between the compass bearing
`atan2(dx, −dy)` of the offset and `wind_dir`. -/
noncomputable def windBiasSpec (wind_dir wind_str : ℝ) (dy dx : ℤ) : ℝ :=
  if wind_str = 0 then 1
  else
    max 0.1 (1 + wind_str *
      Real.cos (radians (angDist (atan2 (dx : ℝ) (-(dy : ℝ)) * 180 / Real.pi) wind_dir)))

/- Concrete inputs used by the witnesses. -/

/-- An oracle whose every draw is `0` (every trial with positive probability
succeeds). -/
def rand0 : RandOracle := fun _ _ => 0

/-- A grid that is `BURNING` at `(0,0)`, `EMPTY` at `(0,1)` and `BURNT` elsewhere. -/
def gMix : Grid := fun y x =>
  if y = 0 ∧ x = 0 then BURNING else if y = 0 ∧ x = 1 then EMPTY else BURNT

/-- A grid with a single `TREE` at `(0,0)` and `EMPTY` elsewhere. -/
def gTree : Grid := fun y x => if y = 0 ∧ x = 0 then TREE else EMPTY

/-- A grid with a single `BURNING` cell at `(0,0)` and `EMPTY` elsewhere. -/
def gBurn : Grid := fun y x => if y = 0 ∧ x = 0 then BURNING else EMPTY

/-- The all-`EMPTY` grid. -/
def gEmpty : Grid := fun _ _ => EMPTY

/-- A concrete running state holding `gBurn`. -/
noncomputable def sBurn : SimState :=
  { grid := gBurn, running := true, paused := false,
    slider_density := 0.6, slider_wind_dir := 0, slider_wind_str := 0.5,
    slider_moisture := 0.2, slider_temperature := 25,
    tree_density := 0.6, wind_dir := 0, wind_str := 0.5, moisture := 0.2,
    temperature := 25, fire_prob := 0.3 }

/-- A concrete state holding `gTree`. -/
noncomputable def sTree : SimState := { sBurn with grid := gTree, running := false }

/-- A concrete state holding `gEmpty`. -/
noncomputable def sEmpty : SimState := { sBurn with grid := gEmpty, running := false }

/- ### Helper lemmas about the step -/

/-- Membership in `np.argwhere(self.grid == BURNING)` is being a burning cell. -/
theorem mem_burningList {g : Grid} {p : Pos} : p ∈ burningList g ↔ g p.1 p.2 = BURNING := by
  obtain ⟨y, x⟩ := p
  simp only [burningList, List.mem_flatMap, List.mem_map, List.mem_filter,
    List.mem_finRange, decide_eq_true_eq, true_and, Prod.mk.injEq]
  constructor
  · rintro ⟨a, b, hb, rfl, rfl⟩
    exact hb
  · intro h
    exact ⟨y, x, h, rfl, rfl⟩

/-- Membership in `np.argwhere(self.grid == TREE)` is being a tree cell. -/
theorem mem_treeList {g : Grid} {p : Pos} : p ∈ treeList g ↔ g p.1 p.2 = TREE := by
  obtain ⟨y, x⟩ := p
  simp only [treeList, List.mem_flatMap, List.mem_map, List.mem_filter,
    List.mem_finRange, decide_eq_true_eq, true_and, Prod.mk.injEq]
  constructor
  · rintro ⟨a, b, hb, rfl, rfl⟩
    exact hb
  · intro h
    exact ⟨y, x, h, rfl, rfl⟩

/-- The tree list is empty exactly when no cell is a tree. -/
theorem treeList_eq_nil {g : Grid} :
    treeList g = [] ↔ ∀ (y : Fin GRID_HEIGHT) (x : Fin GRID_WIDTH), g y x ≠ TREE := by
  rw [List.eq_nil_iff_forall_not_mem]
  constructor
  · intro h y x hT
    exact h (y, x) (mem_treeList.mpr hT)
  · intro h p hp
    exact h p.1 p.2 (mem_treeList.mp hp)

/-- Pointwise effect of one inner-loop body: the queried cell ends `BURNING`
exactly when it is the in-bounds target of this (burning cell, offset) pair, is a
tree in the old grid, and the pair's trial succeeds; otherwise it is untouched. -/
theorem igniteNeighbor_apply (fp wd ws m : ℝ) (rand : RandOracle) (g : Grid) (b : Pos)
    (acc : Grid) (od : ℤ × ℤ) (y : Fin GRID_HEIGHT) (x : Fin GRID_WIDTH) :
    igniteNeighbor fp wd ws m rand g b acc od y x =
      if tgt b od = some (y, x) ∧ g y x = TREE ∧
          rand b od < fp * getWindBias wd ws od.1 od.2 * (1 - m)
      then BURNING else acc y x := by
  unfold igniteNeighbor
  cases htgt : tgt b od with
  | none => simp
  | some t =>
    by_cases hyx : t = (y, x)
    · subst hyx
      by_cases ht : g y x = TREE
      · by_cases hr : rand b od < fp * getWindBias wd ws od.1 od.2 * (1 - m)
        · simp [ht, hr, setCell]
        · simp [ht, hr]
      · simp [ht]
    · have hne : ¬(y = t.1 ∧ x = t.2) := by
        rintro ⟨h1, h2⟩
        exact hyx (Prod.ext h1.symm h2.symm)
      have hcond : ¬(some t = some (y, x) ∧ g y x = TREE ∧
          rand b od < fp * getWindBias wd ws od.1 od.2 * (1 - m)) := by
        rintro ⟨hsome, -, -⟩
        exact hyx (Option.some_inj.mp hsome)
      rw [if_neg hcond]
      by_cases ht : g t.1 t.2 = TREE
      · by_cases hr : rand b od < fp * getWindBias wd ws od.1 od.2 * (1 - m)
        · simp [ht, hr, setCell, hne]
        · simp [ht, hr]
      · simp [ht]

/-- Pointwise effect of the whole inner loop over a list of offsets. -/
theorem foldl_igniteNeighbor (fp wd ws m : ℝ) (rand : RandOracle) (g : Grid) (b : Pos)
    (l : List (ℤ × ℤ)) :
    ∀ (acc : Grid) (y : Fin GRID_HEIGHT) (x : Fin GRID_WIDTH),
      (l.foldl (igniteNeighbor fp wd ws m rand g b) acc) y x =
        if ∃ od ∈ l, tgt b od = some (y, x) ∧ g y x = TREE ∧
            rand b od < fp * getWindBias wd ws od.1 od.2 * (1 - m)
        then BURNING else acc y x := by
  induction l with
  | nil => intro acc y x; simp
  | cons od l ih =>
    intro acc y x
    rw [List.foldl_cons, ih, igniteNeighbor_apply]
    simp only [List.exists_mem_cons_iff]
    by_cases h1 : ∃ od ∈ l, tgt b od = some (y, x) ∧ g y x = TREE ∧
        rand b od < fp * getWindBias wd ws od.1 od.2 * (1 - m)
    · simp [h1]
    · by_cases h2 : tgt b od = some (y, x) ∧ g y x = TREE ∧
          rand b od < fp * getWindBias wd ws od.1 od.2 * (1 - m)
      · simp [h1, h2]
      · simp [h1, h2]

/-- Pointwise effect of the outer loop over a list of burning cells. -/
theorem foldl_igniteFromCell (fp wd ws m : ℝ) (rand : RandOracle) (g : Grid)
    (bs : List Pos) :
    ∀ (acc : Grid) (y : Fin GRID_HEIGHT) (x : Fin GRID_WIDTH),
      (bs.foldl (igniteFromCell fp wd ws m rand g) acc) y x =
        if ∃ b ∈ bs, ∃ od ∈ offsets, tgt b od = some (y, x) ∧ g y x = TREE ∧
            rand b od < fp * getWindBias wd ws od.1 od.2 * (1 - m)
        then BURNING else acc y x := by
  induction bs with
  | nil => intro acc y x; simp
  | cons b bs ih =>
    intro acc y x
    rw [List.foldl_cons, ih]
    have hb : igniteFromCell fp wd ws m rand g acc b y x =
        if ∃ od ∈ offsets, tgt b od = some (y, x) ∧ g y x = TREE ∧
            rand b od < fp * getWindBias wd ws od.1 od.2 * (1 - m)
        then BURNING else acc y x := foldl_igniteNeighbor fp wd ws m rand g b offsets acc y x
    rw [hb]
    simp only [List.exists_mem_cons_iff]
    by_cases h1 : ∃ b' ∈ bs, ∃ od ∈ offsets, tgt b' od = some (y, x) ∧ g y x = TREE ∧
        rand b' od < fp * getWindBias wd ws od.1 od.2 * (1 - m)
    · rw [if_pos h1, if_pos (Or.inr h1)]
    · rw [if_neg h1]
      by_cases h2 : ∃ od ∈ offsets, tgt b od = some (y, x) ∧ g y x = TREE ∧
          rand b od < fp * getWindBias wd ws od.1 od.2 * (1 - m)
      · rw [if_pos h2, if_pos (Or.inl h2)]
      · rw [if_neg h2, if_neg (fun hor => hor.elim h2 h1)]

/-- The loops of `_simulate_step` compute exactly the synchronous per-cell
transition: the imperative step equals the pure one. -/
theorem stepGrid_eq_syncStep (fp wd ws m : ℝ) (rand : RandOracle) (g : Grid) :
    stepGrid fp wd ws m rand g = syncStep fp wd ws m rand g := by
  funext y x
  unfold stepGrid
  rw [foldl_igniteFromCell]
  have key : (∃ b ∈ burningList g, ∃ od ∈ offsets, tgt b od = some (y, x) ∧ g y x = TREE ∧
      rand b od < fp * getWindBias wd ws od.1 od.2 * (1 - m)) ↔
      (g y x = TREE ∧ ignitedFrom fp wd ws m rand g (y, x)) := by
    constructor
    · rintro ⟨b, hb, od, hod, h1, hT, h3⟩
      exact ⟨hT, od, hod, b, h1, mem_burningList.mp hb, h3⟩
    · rintro ⟨hT, od, hod, b, h1, h2, h3⟩
      exact ⟨b, mem_burningList.mpr h2, od, hod, h1, hT, h3⟩
  unfold syncStep burnOld
  by_cases hT : g y x = TREE
  · have hnb : ¬ g y x = BURNING := by rw [hT]; intro h; cases h
    by_cases hI : ignitedFrom fp wd ws m rand g (y, x)
    · rw [if_pos (key.mpr ⟨hT, hI⟩), if_neg hnb, if_pos hT, if_pos hI]
    · rw [if_neg (fun hc => hI (key.mp hc).2), if_neg hnb, if_neg hnb, if_pos hT, if_neg hI]
      exact hT
  · rw [if_neg (fun hc => hT (key.mp hc).1)]
    by_cases hB : g y x = BURNING
    · rw [if_pos hB, if_pos hB]
    · rw [if_neg hB, if_neg hB, if_neg hT]

/-- `np.any(self.grid == BURNING)` is true exactly when some cell is burning. -/
theorem anyBurningB_iff (g : Grid) :
    anyBurningB g = true ↔ ∃ (y : Fin GRID_HEIGHT) (x : Fin GRID_WIDTH), g y x = BURNING := by
  simp [anyBurningB]

/-- A cell that is burning after the step was a tree before, ignited by some
burning cell of the old grid. -/
theorem stepGrid_burning_source {fp wd ws m : ℝ} {rand : RandOracle} {g : Grid}
    {y : Fin GRID_HEIGHT} {x : Fin GRID_WIDTH}
    (h : stepGrid fp wd ws m rand g y x = BURNING) :
    g y x = TREE ∧ ∃ b : Pos, g b.1 b.2 = BURNING := by
  rw [stepGrid_eq_syncStep] at h
  unfold syncStep at h
  by_cases hB : g y x = BURNING
  · rw [if_pos hB] at h
    cases h
  · rw [if_neg hB] at h
    by_cases hT : g y x = TREE
    · rw [if_pos hT] at h
      by_cases hI : ignitedFrom fp wd ws m rand g (y, x)
      · obtain ⟨od, -, b, -, hb, -⟩ := hI
        exact ⟨hT, b, hb⟩
      · rw [if_neg hI] at h
        cases h
    · rw [if_neg hT] at h
      exact absurd h hB

/- ### Helper lemmas for the wind bias -/

/-- Taking the absolute value of the degree argument does not change the cosine. -/
theorem cos_radians_abs (x : ℝ) : Real.cos (radians |x|) = Real.cos (radians x) := by
  rcases abs_cases x with ⟨h, -⟩ | ⟨h, -⟩
  · rw [h]
  · rw [h]
    have hr : radians (-x) = -(radians x) := by unfold radians; ring
    rw [hr, Real.cos_neg]

/-- Reflecting a degree argument at 360 does not change the cosine. -/
theorem cos_radians_360_sub (d : ℝ) : Real.cos (radians (360 - d)) = Real.cos (radians d) := by
  have hr : radians (360 - d) = 2 * Real.pi - radians d := by unfold radians; ring
  rw [hr, Real.cos_sub, Real.cos_two_pi, Real.sin_two_pi]
  ring

/-- Shifting a degree argument by an integer multiple of 360 does not change the
cosine. -/
theorem cos_radians_sub_int (x : ℝ) (k : ℤ) :
    Real.cos (radians (x - 360 * k)) = Real.cos (radians x) := by
  have hr : radians (x - 360 * k) = radians x - k * (2 * Real.pi) := by
    unfold radians; ring
  rw [hr, Real.cos_sub_int_mul_two_pi]

/-- The wrapped angular distance lies in `[0, 180]`. -/
theorem angDist_mem (a b : ℝ) : 0 ≤ angDist a b ∧ angDist a b ≤ 180 := by
  constructor
  · exact abs_nonneg _
  · unfold angDist
    have h1 : a - b - 360 * ((round ((a - b) / 360) : ℤ) : ℝ) =
        360 * ((a - b) / 360 - ((round ((a - b) / 360) : ℤ) : ℝ)) := by ring
    rw [h1, abs_mul]
    have h2 : |(360 : ℝ)| = 360 := by rw [abs_of_nonneg]; norm_num
    rw [h2]
    have h3 : |(a - b) / 360 - ((round ((a - b) / 360) : ℤ) : ℝ)| ≤ 1 / 2 :=
      abs_sub_round ((a - b) / 360)
    nlinarith

/-- The cosine of the code's wrapped difference equals the cosine of the raw
difference of bearings. -/
theorem cos_code_diff (t : ℝ) :
    Real.cos (radians (if 180 < |t| then 360 - |t| else |t|)) = Real.cos (radians t) := by
  by_cases h : 180 < |t|
  · rw [if_pos h, cos_radians_360_sub, cos_radians_abs]
  · rw [if_neg h, cos_radians_abs]

/-- The cosine of the spec's wrapped angular distance equals the cosine of the
raw difference of bearings. -/
theorem cos_angDist (a b : ℝ) :
    Real.cos (radians (angDist a b)) = Real.cos (radians (a - b)) := by
  unfold angDist
  rw [cos_radians_abs, cos_radians_sub_int]

/- ### Helper lemmas for `clamp` -/

/-- `clamp` is monotone in its value argument. -/
theorem clamp_le_clamp {a b : ℝ} (lo hi : ℝ) (h : a ≤ b) : clamp a lo hi ≤ clamp b lo hi :=
  max_le_max le_rfl (min_le_min le_rfl h)

/-- `clamp` lands in `[lo, hi]` whenever `lo ≤ hi`. -/
theorem clamp_mem {lo hi : ℝ} (val : ℝ) (h : lo ≤ hi) :
    lo ≤ clamp val lo hi ∧ clamp val lo hi ≤ hi :=
  ⟨le_max_left _ _, max_le h (min_le_left _ _)⟩

/- ### Helper lemmas for `_start_fire` -/

/-- `np.argwhere` yields each position at most once. -/
theorem nodup_treeList (g : Grid) : (treeList g).Nodup := by
  unfold treeList
  rw [List.nodup_flatMap]
  constructor
  · intro y hy
    exact (List.Nodup.filter _ (List.nodup_finRange _)).map
      (fun a b h => by simpa using h)
  · have hp : List.Pairwise (fun a b : Fin GRID_HEIGHT => a ≠ b) (List.finRange GRID_HEIGHT) :=
      List.nodup_finRange _
    refine hp.imp ?_
    intro a b hab
    intro p hpa hpb
    obtain ⟨xa, -, rfl⟩ := List.mem_map.mp hpa
    obtain ⟨xb, -, h⟩ := List.mem_map.mp hpb
    exact hab (congrArg Prod.fst h.symm)

/-- The index loop of `_start_fire` is the same as setting every successfully
looked-up tree cell on fire. -/
theorem foldl_pick_eq (l : List Pos) (pick : List ℕ) :
    ∀ acc : Grid,
      pick.foldl (fun acc i =>
        match l[i]? with
        | some t => setCell acc t BURNING
        | none => acc) acc =
      (pick.filterMap fun i => l[i]?).foldl (fun acc t => setCell acc t BURNING) acc := by
  induction pick with
  | nil => intro acc; rfl
  | cons i pick ih =>
    intro acc
    rw [List.foldl_cons, List.filterMap_cons]
    cases h : l[i]? with
    | none => simp only [h]; exact ih acc
    | some t => simp only [h, List.foldl_cons]; exact ih (setCell acc t BURNING)

/-- Setting a list of cells on fire, pointwise. -/
theorem foldl_setCell (l : List Pos) :
    ∀ (acc : Grid) (y : Fin GRID_HEIGHT) (x : Fin GRID_WIDTH),
      (l.foldl (fun acc t => setCell acc t BURNING) acc) y x =
        if (y, x) ∈ l then BURNING else acc y x := by
  induction l with
  | nil => intro acc y x; simp
  | cons t l ih =>
    intro acc y x
    rw [List.foldl_cons, ih]
    simp only [List.mem_cons]
    by_cases h1 : (y, x) ∈ l
    · rw [if_pos h1, if_pos (Or.inr h1)]
    · rw [if_neg h1]
      by_cases h2 : (y, x) = t
      · have : y = t.1 ∧ x = t.2 := by rw [← h2]; exact ⟨rfl, rfl⟩
        rw [if_pos (Or.inl h2)]
        simp [setCell, this]
      · have hne : ¬(y = t.1 ∧ x = t.2) := by
          rintro ⟨ha, hb⟩
          exact h2 (Prod.ext ha hb)
        rw [if_neg (fun hor => hor.elim h2 h1)]
        simp [setCell, hne]

/-- When every picked index is in range, the number of looked-up cells equals the
number of picked indices. -/
theorem length_filterMap_pick (l : List Pos) (pick : List ℕ)
    (h : ∀ i ∈ pick, i < l.length) :
    (pick.filterMap fun i => l[i]?).length = pick.length := by
  induction pick with
  | nil => rfl
  | cons i pick ih =>
    have hi : i < l.length := h i (List.mem_cons_self i pick)
    obtain ⟨t, ht⟩ : ∃ t, l[i]? = some t := by
      rw [List.getElem?_eq_getElem hi]
      exact ⟨l[i], rfl⟩
    rw [List.filterMap_cons, ht, List.length_cons, ih (fun j hj => h j (List.mem_cons_of_mem i hj))]
    rfl

/-- Distinct in-range indices into a duplicate-free list look up distinct cells. -/
theorem nodup_filterMap_pick (l : List Pos) (pick : List ℕ) (hl : l.Nodup)
    (hpick : pick.Nodup) :
    (pick.filterMap fun i => l[i]?).Nodup := by
  apply List.Nodup.filterMap ?_ hpick
  intro i j t hti htj
  have hti' : l[i]? = some t := hti
  have htj' : l[j]? = some t := htj
  have hi : i < l.length := by
    by_contra hcon
    rw [List.getElem?_eq_none (le_of_not_lt hcon)] at hti'
    cases hti'
  exact List.getElem?_inj hi hl (hti'.trans htj'.symm)

/-- Every successfully looked-up cell is a member of the list. -/
theorem mem_of_filterMap_pick (l : List Pos) (pick : List ℕ) {t : Pos}
    (h : t ∈ pick.filterMap fun i => l[i]?) : t ∈ l := by
  obtain ⟨i, -, hi⟩ := List.mem_filterMap.mp h
  exact List.getElem?_mem hi

/- ### Pointwise appliers for the synchronous step -/

/-- A burning cell burns out. -/
theorem syncStep_apply_burning {fp wd ws m : ℝ} {rand : RandOracle} {g : Grid}
    {y : Fin GRID_HEIGHT} {x : Fin GRID_WIDTH} (h : g y x = BURNING) :
    syncStep fp wd ws m rand g y x = BURNT := by
  unfold syncStep
  rw [if_pos h]

/-- A cell that is neither burning nor a tree is untouched. -/
theorem syncStep_apply_other {fp wd ws m : ℝ} {rand : RandOracle} {g : Grid}
    {y : Fin GRID_HEIGHT} {x : Fin GRID_WIDTH} (h1 : g y x ≠ BURNING) (h2 : g y x ≠ TREE) :
    syncStep fp wd ws m rand g y x = g y x := by
  unfold syncStep
  rw [if_neg h1, if_neg h2]

open Classical in
/-- A tree cell ignites exactly when some neighbouring trial succeeds. -/
theorem syncStep_apply_tree {fp wd ws m : ℝ} {rand : RandOracle} {g : Grid}
    {y : Fin GRID_HEIGHT} {x : Fin GRID_WIDTH} (h : g y x = TREE) :
    syncStep fp wd ws m rand g y x =
      if ignitedFrom fp wd ws m rand g (y, x) then BURNING else TREE := by
  unfold syncStep
  rw [if_neg (by rw [h]; intro hc; cases hc), if_pos h]

/- ### The claims -/

/-- Claim C1: for every grid, one step applies the per-cell state machine: every
cell that was `BURNING` becomes `BURNT` unconditionally; `EMPTY` and `BURNT`
cells never change; no cell transitions directly from `TREE` or `EMPTY` to
`BURNT`; consequently a grid containing only `EMPTY` and `BURNT` cells is
unchanged by the step. -/
theorem step_cell_state_machine (fp wd ws m : ℝ) (rand : RandOracle) (g : Grid) :
    (∀ y x, g y x = BURNING → stepGrid fp wd ws m rand g y x = BURNT)
    ∧ (∀ y x, g y x = EMPTY → stepGrid fp wd ws m rand g y x = EMPTY)
    ∧ (∀ y x, g y x = BURNT → stepGrid fp wd ws m rand g y x = BURNT)
    ∧ (∀ y x, stepGrid fp wd ws m rand g y x = BURNT → g y x = BURNING ∨ g y x = BURNT)
    ∧ ((∀ y x, g y x = EMPTY ∨ g y x = BURNT) → stepGrid fp wd ws m rand g = g) := by
  rw [stepGrid_eq_syncStep]
  refine ⟨?_, ?_, ?_, ?_, ?_⟩
  · intro y x h
    exact syncStep_apply_burning h
  · intro y x h
    rw [syncStep_apply_other (by rw [h]; intro hc; cases hc) (by rw [h]; intro hc; cases hc)]
    exact h
  · intro y x h
    rw [syncStep_apply_other (by rw [h]; intro hc; cases hc) (by rw [h]; intro hc; cases hc)]
    exact h
  · intro y x h
    by_cases hB : g y x = BURNING
    · exact Or.inl hB
    · by_cases hT : g y x = TREE
      · rw [syncStep_apply_tree hT] at h
        by_cases hI : ignitedFrom fp wd ws m rand g (y, x)
        · rw [if_pos hI] at h
          cases h
        · rw [if_neg hI] at h
          cases h
      · rw [syncStep_apply_other hB hT] at h
        exact Or.inr h
  · intro hall
    funext y x
    rcases hall y x with h | h
    · exact syncStep_apply_other (by rw [h]; intro hc; cases hc) (by rw [h]; intro hc; cases hc)
    · exact syncStep_apply_other (by rw [h]; intro hc; cases hc) (by rw [h]; intro hc; cases hc)

/-- Witness for C1 at concrete inputs: in `gMix`, the burning corner burns out,
the empty cell stays empty, a burnt cell stays burnt, and the all-empty grid is a
fixed point of the step. -/
theorem step_cell_state_machine_witness :
    stepGrid 1 0 0 0 rand0 gMix 0 0 = BURNT
    ∧ stepGrid 1 0 0 0 rand0 gMix 0 1 = EMPTY
    ∧ stepGrid 1 0 0 0 rand0 gMix 1 0 = BURNT
    ∧ stepGrid 1 0 0 0 rand0 gEmpty = gEmpty := by
  obtain ⟨h1, h2, h3, -, -⟩ := step_cell_state_machine 1 0 0 0 rand0 gMix
  obtain ⟨-, -, -, -, h5⟩ := step_cell_state_machine 1 0 0 0 rand0 gEmpty
  exact ⟨h1 0 0 (by decide), h2 0 1 (by decide), h3 1 0 (by decide),
    h5 (fun _ _ => Or.inl rfl)⟩

/-- Claim C2: during a step, a `TREE` cell becomes `BURNING` iff at least one
burning-neighbour trial succeeds, a trial being one independent uniform draw
compared against `fire_prob * wind_bias(dy, dx) * (1 - moisture)`; a `TREE` cell
with no burning Moore neighbour remains `TREE`. -/
theorem tree_ignition_iff (fp wd ws m : ℝ) (rand : RandOracle) (g : Grid)
    (y : Fin GRID_HEIGHT) (x : Fin GRID_WIDTH) (hT : g y x = TREE) :
    (stepGrid fp wd ws m rand g y x = BURNING ↔
      ∃ od ∈ offsets, ∃ b : Pos, tgt b od = some (y, x) ∧ g b.1 b.2 = BURNING ∧
        rand b od < fp * getWindBias wd ws od.1 od.2 * (1 - m))
    ∧ ((∀ od ∈ offsets, ∀ b : Pos, tgt b od = some (y, x) → g b.1 b.2 ≠ BURNING) →
        stepGrid fp wd ws m rand g y x = TREE) := by
  rw [stepGrid_eq_syncStep, syncStep_apply_tree hT]
  constructor
  · by_cases hI : ignitedFrom fp wd ws m rand g (y, x)
    · rw [if_pos hI]
      exact ⟨fun _ => hI, fun _ => rfl⟩
    · rw [if_neg hI]
      constructor
      · intro h
        cases h
      · intro h
        exact absurd h hI
  · intro hno
    have hnI : ¬ ignitedFrom fp wd ws m rand g (y, x) := by
      rintro ⟨od, hod, b, h1, h2, h3⟩
      exact hno od hod b h1 h2
    rw [if_neg hnI]

/-- Witness for C2: the lone tree of `gTree` has no burning neighbour, so it
survives the step. -/
theorem tree_ignition_iff_witness : stepGrid 1 0 0 0 rand0 gTree 0 0 = TREE := by
  obtain ⟨-, h2⟩ := tree_ignition_iff 1 0 0 0 rand0 gTree 0 0 (by decide)
  refine h2 ?_
  intro od hod b htgt
  show gTree b.1 b.2 ≠ BURNING
  unfold gTree
  split
  · intro h
    cases h
  · intro h
    cases h

/-- Claim C6: the step is globally synchronous — the imperative
copy-then-write loop of `_simulate_step` equals the pure cell-wise synchronous
transition function of the previous grid and the parameters, so no cell's
transition observes a partially updated neighbour. -/
theorem step_synchronous_refinement (fp wd ws m : ℝ) (rand : RandOracle) (g : Grid)
    (s : SimState) :
    stepGrid fp wd ws m rand g = syncStep fp wd ws m rand g
    ∧ (simulateStep rand s).grid =
        syncStep s.fire_prob s.wind_dir s.wind_str s.moisture rand s.grid :=
  ⟨stepGrid_eq_syncStep fp wd ws m rand g,
    stepGrid_eq_syncStep s.fire_prob s.wind_dir s.wind_str s.moisture rand s.grid⟩

/-- Claim C7: after a step the caller-visible `running` signal is false exactly
when no cell of the resulting grid is `BURNING`.  The first part assumes the
reachability invariant of the program (whenever a burning cell exists, the
igniting action has set `running`), which every caller-visible state satisfies;
the second part is the concrete scenario: a grid with no `TREE` cell ends the
step with zero burning cells and `running = false`, unconditionally. -/
theorem step_running_signal (rand : RandOracle) (s : SimState) :
    (((∃ y x, s.grid y x = BURNING) → s.running = true) →
      ((simulateStep rand s).running = false ↔
        ¬ ∃ y x, (simulateStep rand s).grid y x = BURNING))
    ∧ ((∀ y x, s.grid y x ≠ TREE) →
        (¬ ∃ y x, (simulateStep rand s).grid y x = BURNING)
        ∧ (simulateStep rand s).running = false) := by
  have hgrid : (simulateStep rand s).grid =
      stepGrid s.fire_prob s.wind_dir s.wind_str s.moisture rand s.grid := rfl
  have hrun : (simulateStep rand s).running =
      (if anyBurningB (stepGrid s.fire_prob s.wind_dir s.wind_str s.moisture rand s.grid)
       then s.running else false) := rfl
  rw [hgrid, hrun]
  constructor
  · intro hinv
    by_cases hb : anyBurningB (stepGrid s.fire_prob s.wind_dir s.wind_str s.moisture rand
        s.grid) = true
    · rw [if_pos hb]
      obtain ⟨y, x, hyx⟩ := (anyBurningB_iff _).mp hb
      obtain ⟨-, b, hB⟩ := stepGrid_burning_source hyx
      have hr : s.running = true := hinv ⟨b.1, b.2, hB⟩
      rw [hr]
      constructor
      · intro h
        cases h
      · intro hn
        exact absurd ⟨y, x, hyx⟩ hn
    · rw [if_neg hb]
      constructor
      · rintro - ⟨y, x, hyx⟩
        exact hb ((anyBurningB_iff _).mpr ⟨y, x, hyx⟩)
      · intro h
        rfl
  · intro hT
    have hnone : ¬ ∃ y x, stepGrid s.fire_prob s.wind_dir s.wind_str s.moisture rand
        s.grid y x = BURNING := by
      rintro ⟨y, x, h⟩
      exact hT y x (stepGrid_burning_source h).1
    have hb : ¬ anyBurningB (stepGrid s.fire_prob s.wind_dir s.wind_str s.moisture rand
        s.grid) = true := fun h => hnone ((anyBurningB_iff _).mp h)
    exact ⟨hnone, by rw [if_neg hb]⟩

/-- Witness for C7: stepping `sBurn` (a single burning cell, no trees) leaves no
burning cell and clears the signal; the iff holds for it as well. -/
theorem step_running_signal_witness :
    ((simulateStep rand0 sBurn).running = false ↔
      ¬ ∃ y x, (simulateStep rand0 sBurn).grid y x = BURNING)
    ∧ (¬ ∃ y x, (simulateStep rand0 sBurn).grid y x = BURNING)
    ∧ (simulateStep rand0 sBurn).running = false := by
  obtain ⟨h1, h2⟩ := step_running_signal rand0 sBurn
  have hnt : ∀ y x, sBurn.grid y x ≠ TREE := by
    intro y x
    show gBurn y x ≠ TREE
    unfold gBurn
    split
    · intro h
      cases h
    · intro h
      cases h
  obtain ⟨ha, hb⟩ := h2 hnt
  exact ⟨h1 (fun _ => rfl), ha, hb⟩

/-- Claim C3: `_get_wind_bias` returns exactly `1.0` when `wind_str = 0`, and
otherwise returns `max(0.1, 1.0 + wind_str · cos(radians(diff)))` where `diff`
is the shortest angular distance, wrapped into `[0, 180]`, between the compass
bearing `atan2(dx, −dy)` (in degrees) of the offset and `wind_dir` — i.e. the
code computes the spec-side `windBiasSpec`, whose wrapped distance indeed lies
in `[0, 180]`. -/
theorem wind_bias_spec_equiv (wd ws : ℝ) (dy dx : ℤ)
    (_hdy : dy = -1 ∨ dy = 0 ∨ dy = 1) (_hdx : dx = -1 ∨ dx = 0 ∨ dx = 1)
    (_hne : ¬(dy = 0 ∧ dx = 0)) (_h0 : 0 ≤ wd) (_h1 : wd < 360) :
    (ws = 0 → getWindBias wd ws dy dx = 1)
    ∧ getWindBias wd ws dy dx = windBiasSpec wd ws dy dx
    ∧ 0 ≤ angDist (atan2 (dx : ℝ) (-(dy : ℝ)) * 180 / Real.pi) wd
    ∧ angDist (atan2 (dx : ℝ) (-(dy : ℝ)) * 180 / Real.pi) wd ≤ 180 := by
  refine ⟨?_, ?_, (angDist_mem _ _).1, (angDist_mem _ _).2⟩
  · intro h
    unfold getWindBias
    rw [if_pos h]
  · by_cases hws : ws = 0
    · unfold getWindBias windBiasSpec
      rw [if_pos hws, if_pos hws]
    · unfold getWindBias windBiasSpec
      rw [if_neg hws, if_neg hws]
      have hc : Real.cos (radians
            (if 180 < |atan2 (dx : ℝ) (-(dy : ℝ)) * 180 / Real.pi - wd|
             then 360 - |atan2 (dx : ℝ) (-(dy : ℝ)) * 180 / Real.pi - wd|
             else |atan2 (dx : ℝ) (-(dy : ℝ)) * 180 / Real.pi - wd|)) =
          Real.cos (radians (angDist (atan2 (dx : ℝ) (-(dy : ℝ)) * 180 / Real.pi) wd)) :=
        (cos_code_diff (atan2 (dx : ℝ) (-(dy : ℝ)) * 180 / Real.pi - wd)).trans
          (cos_angDist (atan2 (dx : ℝ) (-(dy : ℝ)) * 180 / Real.pi) wd).symm
      rw [hc]

/-- Witness for C3 at the due-north offset with zero wind strength. -/
theorem wind_bias_spec_equiv_witness :
    getWindBias 0 0 (-1) 0 = 1 ∧ getWindBias 0 0 (-1) 0 = windBiasSpec 0 0 (-1) 0 := by
  obtain ⟨h1, h2, -, -⟩ := wind_bias_spec_equiv 0 0 (-1) 0 (Or.inl rfl)
    (Or.inr (Or.inl rfl)) (by decide) le_rfl (by norm_num)
  exact ⟨h1 rfl, h2⟩

/-- Claim C4: the derived fire probability is the pure function of the
parameters computed at the end of `_sync_params`:
`temp_factor = clamp((temperature − 10) / 40, 0, 1)` and then
`fire_prob = clamp(0.15 + 0.5·temp_factor + 0.2·wind_str − 0.4·moisture, 0.05, 0.95)`. -/
theorem derive_fire_probability_formula (s : SimState) (te ws mo : ℝ) :
    (syncParams s).fire_prob =
      derive_fire_probability s.slider_temperature s.slider_wind_str s.slider_moisture
    ∧ derive_fire_probability te ws mo =
      max 0.05 (min 0.95 (0.15 + 0.5 * max 0 (min 1 ((te - 10) / 40)) + 0.2 * ws - 0.4 * mo)) :=
  ⟨rfl, rfl⟩

/-- Claim C5: the derived fire probability is monotonically non-decreasing in
temperature and wind strength, non-increasing in moisture, and always lies in
`[0.05, 0.95]`. -/
theorem derive_fire_probability_monotone (te te' ws ws' mo mo' : ℝ) :
    (te ≤ te' → derive_fire_probability te ws mo ≤ derive_fire_probability te' ws mo)
    ∧ (ws ≤ ws' → derive_fire_probability te ws mo ≤ derive_fire_probability te ws' mo)
    ∧ (mo ≤ mo' → derive_fire_probability te ws mo' ≤ derive_fire_probability te ws mo)
    ∧ 0.05 ≤ derive_fire_probability te ws mo
    ∧ derive_fire_probability te ws mo ≤ 0.95 := by
  unfold derive_fire_probability
  refine ⟨?_, ?_, ?_, (clamp_mem _ (by norm_num)).1, (clamp_mem _ (by norm_num)).2⟩
  · intro h
    apply clamp_le_clamp
    have h1 : clamp ((te - 10) / 40) 0 1 ≤ clamp ((te' - 10) / 40) 0 1 :=
      clamp_le_clamp _ _ (by linarith)
    linarith
  · intro h
    apply clamp_le_clamp
    linarith
  · intro h
    apply clamp_le_clamp
    linarith

/-- Witness for C5 at concrete parameter values. -/
theorem derive_fire_probability_monotone_witness :
    derive_fire_probability 0 0 0 ≤ derive_fire_probability 1 0 0
    ∧ derive_fire_probability 0 0 0 ≤ derive_fire_probability 0 1 0
    ∧ derive_fire_probability 0 0 1 ≤ derive_fire_probability 0 0 0
    ∧ 0.05 ≤ derive_fire_probability 0 0 0
    ∧ derive_fire_probability 0 0 0 ≤ 0.95 := by
  obtain ⟨h1, h2, h3, h4, h5⟩ := derive_fire_probability_monotone 0 1 0 1 0 1
  exact ⟨h1 zero_le_one, h2 zero_le_one, h3 zero_le_one, h4, h5⟩

/-- Claim C8: `_init_forest` replaces the whole grid with an independent
per-cell Bernoulli draw — a cell is `TREE` exactly when its uniform draw falls
below `tree_density`, otherwise `EMPTY` — so after initialisation no cell is
`BURNING` or `BURNT`. -/
theorem init_forest_bernoulli (d : ℝ) (u : Fin GRID_HEIGHT → Fin GRID_WIDTH → ℝ)
    (y : Fin GRID_HEIGHT) (x : Fin GRID_WIDTH) :
    (initForest d u y x = TREE ↔ u y x < d)
    ∧ (initForest d u y x = TREE ∨ initForest d u y x = EMPTY)
    ∧ initForest d u y x ≠ BURNING ∧ initForest d u y x ≠ BURNT := by
  unfold initForest
  by_cases h : u y x < d
  · rw [if_pos h]
    refine ⟨⟨fun _ => h, fun _ => rfl⟩, Or.inl rfl, ?_, ?_⟩
    · intro hc
      cases hc
    · intro hc
      cases hc
  · rw [if_neg h]
    refine ⟨⟨fun hc => ?_, fun hc => absurd hc h⟩, Or.inr rfl, ?_, ?_⟩
    · cases hc
    · intro hc
      cases hc
    · intro hc
      cases hc

/-- Claim C9: `_start_fire` sets exactly the picked tree cells to `BURNING` —
with the indices supplied by `np.random.choice(len(trees), min(3, len(trees)),
replace=False)` (distinct, in range, `min 3 n` of them), the chosen cells are
distinct `TREE` cells, exactly they are newly set on fire, their number is
`min 3 n`, and the simulation is marked running; with zero `TREE` cells the grid
and the whole state (including `running`) are unchanged. -/
theorem start_fire_spec (pick : List ℕ) (s : SimState) :
    ((∀ y x, s.grid y x ≠ TREE) → startFire pick s = s)
    ∧ (treeList s.grid ≠ [] →
        pick.Nodup →
        (∀ i ∈ pick, i < (treeList s.grid).length) →
        pick.length = min 3 (treeList s.grid).length →
        (∀ y x, (startFire pick s).grid y x =
            if (y, x) ∈ pick.filterMap (fun i => (treeList s.grid)[i]?) then BURNING
            else s.grid y x)
        ∧ (∀ t ∈ pick.filterMap (fun i => (treeList s.grid)[i]?), s.grid t.1 t.2 = TREE)
        ∧ (pick.filterMap fun i => (treeList s.grid)[i]?).Nodup
        ∧ (pick.filterMap fun i => (treeList s.grid)[i]?).length =
            min 3 (treeList s.grid).length
        ∧ (startFire pick s).running = true) := by
  constructor
  · intro h
    unfold startFire
    rw [if_pos (treeList_eq_nil.mpr h)]
  · intro hne hnd hlt hlen
    unfold startFire
    rw [if_neg hne]
    refine ⟨?_, ?_, ?_, ?_, rfl⟩
    · intro y x
      show (pick.foldl (fun acc i =>
          match (treeList s.grid)[i]? with
          | some t => setCell acc t BURNING
          | none => acc) s.grid) y x = _
      rw [foldl_pick_eq, foldl_setCell]
    · intro t ht
      exact mem_treeList.mp (mem_of_filterMap_pick _ _ ht)
    · exact nodup_filterMap_pick _ _ (nodup_treeList _) hnd
    · rw [length_filterMap_pick _ _ hlt, hlen]

/-- Witness for C9: on the all-empty grid, `_start_fire` is a no-op; on the grid
with a single tree at the origin, picking index 0 marks the simulation running
and sets that tree on fire. -/
theorem start_fire_spec_witness :
    startFire [0] sEmpty = sEmpty
    ∧ (startFire [0] sTree).running = true
    ∧ (startFire [0] sTree).grid 0 0 = BURNING := by
  obtain ⟨hE, -⟩ := start_fire_spec [0] sEmpty
  obtain ⟨-, hT⟩ := start_fire_spec [0] sTree
  have htl : treeList sTree.grid = [((0 : Fin GRID_HEIGHT), (0 : Fin GRID_WIDTH))] := by
    decide
  obtain ⟨hgrid, -, -, -, hrun⟩ := hT (by rw [htl]; intro h; cases h)
    (List.nodup_singleton 0)
    (by rw [htl]; intro i hi; rcases List.mem_singleton.mp hi with rfl; decide)
    (by rw [htl]; rfl)
  refine ⟨hE ?_, hrun, ?_⟩
  · intro y x h
    exact CellState.noConfusion h
  · rw [hgrid 0 0, if_pos ?_]
    rw [htl]
    decide

/-- Claim C10: `_randomize` is never a parameters-only change — besides writing
the five drawn values through the sliders into the parameters, it recomputes
`fire_prob`, replaces the entire grid with a fresh Bernoulli forest at the new
tree density, and clears both the `running` and `paused` flags. -/
theorem randomize_frame_effect (d wd ws mo te : ℝ)
    (u : Fin GRID_HEIGHT → Fin GRID_WIDTH → ℝ) (s : SimState) :
    (randomize d wd ws mo te u s).grid = initForest d u
    ∧ (randomize d wd ws mo te u s).running = false
    ∧ (randomize d wd ws mo te u s).paused = false
    ∧ (randomize d wd ws mo te u s).tree_density = d
    ∧ (randomize d wd ws mo te u s).wind_dir = wd
    ∧ (randomize d wd ws mo te u s).wind_str = ws
    ∧ (randomize d wd ws mo te u s).moisture = mo
    ∧ (randomize d wd ws mo te u s).temperature = te
    ∧ (randomize d wd ws mo te u s).fire_prob = derive_fire_probability te ws mo
    ∧ ∀ y x, ((randomize d wd ws mo te u s).grid y x = TREE ↔ u y x < d) := by
  refine ⟨rfl, rfl, rfl, rfl, rfl, rfl, rfl, rfl, rfl, ?_⟩
  intro y x
  show initForest d u y x = TREE ↔ u y x < d
  unfold initForest
  by_cases h : u y x < d
  · rw [if_pos h]
    exact ⟨fun _ => h, fun _ => rfl⟩
  · rw [if_neg h]
    constructor
    · intro hc
      cases hc
    · intro hc
      exact absurd hc h

/-- Witness for C8 at a concrete density and draw function. -/
theorem init_forest_bernoulli_witness :
    (initForest 1 (fun _ _ => 0) 0 0 = TREE ↔ (0 : ℝ) < 1)
    ∧ initForest 1 (fun _ _ => 0) 0 0 ≠ BURNING
    ∧ initForest 1 (fun _ _ => 0) 0 0 ≠ BURNT := by
  obtain ⟨h1, -, h3, h4⟩ := init_forest_bernoulli 1 (fun _ _ => 0) 0 0
  exact ⟨h1, h3, h4⟩
